import Mathlib

/-!
# Verification of the lowKey-Stream media server core

Shallow embedding of the media-maintenance pipeline and streaming layer of
`server/stream_server.py` and `server/convert_videos.py`, together with
theorems settling the specification claims about them.

Conventions of the embedding:
* file contents are `List Nat` (byte values), paths are `String`s or
  component lists, machine integers are `Nat`/`Int`;
* external subprocess invocations (ffmpeg / ffprobe) are oracles passed in
  as explicit parameters: the classifier sees the probe result, the worker
  sees the process outcome and the bytes the process wrote;
* every definition is executable so that concrete witnesses evaluate by
  `decide` / `rfl`.
-/

namespace LowKey

/-! ## Byte helpers: big-endian integers, as `int.from_bytes(b, "big")` -/

/-- `int.from_bytes(l, "big")`: fold the byte list big-endian into a `Nat`. -/
def beVal (l : List Nat) : Nat := l.foldl (fun a b => a * 256 + b) 0

/-- 4-byte big-endian encoding of `n` (the low 32 bits). -/
def be32enc (n : Nat) : List Nat :=
  [n / 2 ^ 24 % 256, n / 2 ^ 16 % 256, n / 2 ^ 8 % 256, n % 256]

/-- 8-byte big-endian encoding of `n` (the low 64 bits). -/
def be64enc (n : Nat) : List Nat :=
  [n / 2 ^ 56 % 256, n / 2 ^ 48 % 256, n / 2 ^ 40 % 256,
   n / 2 ^ 32 % 256, n / 2 ^ 24 % 256, n / 2 ^ 16 % 256, n / 2 ^ 8 % 256, n % 256]

theorem beVal_be32enc (n : Nat) (h : n < 2 ^ 32) : beVal (be32enc n) = n := by
  simp only [beVal, be32enc, List.foldl]
  omega

theorem beVal_be64enc (n : Nat) (h : n < 2 ^ 64) : beVal (be64enc n) = n := by
  simp only [beVal, be64enc, List.foldl]
  omega

theorem be32enc_length (n : Nat) : (be32enc n).length = 4 := rfl

theorem be64enc_length (n : Nat) : (be64enc n).length = 8 := rfl

/-! ## Box Reader (`AutoConverter._needs_faststart`, stream_server.py:212-238)

The Python code walks 8-byte box headers from the start of the file:

* short header read (< 8 bytes) → `False`;
* type `moov` → `False`; type `mdat` → `True`;
* `size == 1` → read an 8-byte extended size `ext`, then `f.seek(ext-16, 1)`
  (the stream position is `pos+16` at that point, so the next header is read
  at byte offset `pos + ext`);
* `size < 8` → `False`; otherwise `f.seek(size-8, 1)`, next header at
  `pos + size`;
* any exception → `False`.

The embedding reads from an in-memory byte list; a `seek` past end-of-file is
legal in Python and the following read just comes back short, which the model
reproduces via `List.drop`/`List.take`. Backward seeks (extended size < 16)
keep the position non-negative (`pos + ext ≥ 0`), so the Python code raises
no exception there; they can make the loop revisit positions, hence the
explicit `fuel` bound: `none` means the bounded model gave up (the Python
loop would still be running). `data.length + 1` units of fuel are enough for
any run that only moves forward, in particular for well-formed files. -/

/-- The four type-code bytes of `b"moov"`. -/
def moovCode : List Nat := [0x6d, 0x6f, 0x6f, 0x76]

/-- The four type-code bytes of `b"mdat"`. -/
def mdatCode : List Nat := [0x6d, 0x64, 0x61, 0x74]

/-- One step / loop of `_needs_faststart`, reading at byte offset `pos`. -/
def nfLoop (data : List Nat) : Nat → Nat → Option Bool
  | 0, _ => none
  | fuel + 1, pos =>
    let header := (data.drop pos).take 8
    if header.length < 8 then some false
    else
      let size := beVal (header.take 4)
      let atomType := header.drop 4
      if atomType = moovCode then some false
      else if atomType = mdatCode then some true
      else if size = 1 then
        let ext := (data.drop (pos + 8)).take 8
        if ext.length < 8 then some false
        else nfLoop data fuel (pos + beVal ext)
      else if size < 8 then some false
      else nfLoop data fuel (pos + size)

/-- `AutoConverter._needs_faststart`: `some true` = "needs faststart"
(defect: `mdat` before `moov`), `some false` = no defect, `none` = the
bounded model ran out of fuel (the Python loop does not terminate in
`data.length + 1` header reads). -/
def needs_faststart (data : List Nat) : Option Bool :=
  nfLoop data (data.length + 1) 0

/-! Well-formed top-level box sequences, for the claim about well-formed
files. A box is either standard (32-bit size field holding the full box
size `8 + payload`) or extended (size field `1`, 64-bit extended size
`16 + payload`). -/

/-- A top-level container box: type code and payload, in standard or
extended (64-bit size) form. -/
inductive Box where
  | std (typ : List Nat) (payload : List Nat)
  | ext (typ : List Nat) (payload : List Nat)
deriving DecidableEq, Repr

/-- The 4-byte type code of a box. -/
def Box.typ : Box → List Nat
  | .std t _ => t
  | .ext t _ => t

/-- Serialize one box. -/
def Box.encode : Box → List Nat
  | .std t p => be32enc (8 + p.length) ++ t ++ p
  | .ext t p => be32enc 1 ++ t ++ be64enc (16 + p.length) ++ p

/-- Well-formedness of one box: 4-byte type code and a size that fits the
size field. -/
def Box.wfb : Box → Bool
  | .std t p => t.length = 4 ∧ 8 + p.length < 2 ^ 32
  | .ext t p => t.length = 4 ∧ 16 + p.length < 2 ^ 64

/-- Serialize a box sequence (a well-formed file is exactly such a
concatenation). -/
def encBoxes (bs : List Box) : List Nat := (bs.map Box.encode).flatten

/-- "The `mdat` box precedes the `moov` box": the first box whose type is
`moov` or `mdat` has type `mdat`. This is the specification-side reading of
the Box Reader's verdict. -/
def mdatFirst : List Box → Bool
  | [] => false
  | b :: rest =>
    if b.typ = moovCode then false
    else if b.typ = mdatCode then true
    else mdatFirst rest

theorem Box.encode_length_std (t p : List Nat) (ht : t.length = 4) :
    (Box.std t p).encode.length = 8 + p.length := by
  simp [Box.encode, be32enc, ht]; omega

theorem Box.encode_length_ext (t p : List Nat) (ht : t.length = 4) :
    (Box.ext t p).encode.length = 16 + p.length := by
  simp [Box.encode, be32enc, be64enc, ht]; omega

theorem Box.encode_length_pos (b : Box) : 4 ≤ b.encode.length := by
  cases b <;> simp [Box.encode, be32enc, be64enc]

theorem encBoxes_length_ge (bs : List Box) : bs.length ≤ (encBoxes bs).length := by
  induction bs with
  | nil => simp [encBoxes]
  | cons b rest ih =>
    have h4 := Box.encode_length_pos b
    simp only [encBoxes, List.map_cons, List.flatten_cons, List.length_append,
      List.length_cons]
    simp only [encBoxes] at ih
    omega

theorem take_append_all {α : Type} (l₁ l₂ : List α) (n : Nat) (h : l₁.length = n) :
    (l₁ ++ l₂).take n = l₁ := by
  subst h
  simp

theorem drop_append_all {α : Type} (l₁ l₂ : List α) (n : Nat) (h : l₁.length = n) :
    (l₁ ++ l₂).drop n = l₂ := by
  subst h
  simp

theorem encBoxes_cons (b : Box) (rest : List Box) :
    encBoxes (b :: rest) = b.encode ++ encBoxes rest := by
  simp [encBoxes]

/-- The Box Reader, run anywhere inside a buffer whose suffix from the read
position is a well-formed box concatenation, reports exactly "the first
`moov`-or-`mdat` box is `mdat`". -/
theorem nfLoop_encBoxes (bs : List Box) : ∀ (fuel : Nat) (pre : List Nat),
    bs.length < fuel → (∀ b ∈ bs, b.wfb = true) →
    nfLoop (pre ++ encBoxes bs) fuel pre.length = some (mdatFirst bs) := by
  induction bs with
  | nil =>
    intro fuel pre hf _
    cases fuel with
    | zero => omega
    | succ f => simp [nfLoop, encBoxes, mdatFirst]
  | cons b rest ih =>
    intro fuel pre hf hw
    cases fuel with
    | zero => omega
    | succ f =>
      have hwb : b.wfb = true := hw b (by simp)
      have hwrest : ∀ x ∈ rest, x.wfb = true := fun x hx => hw x (by simp [hx])
      have hfr : rest.length < f := by
        simp only [List.length_cons] at hf; omega
      cases b with
      | std t p =>
        simp only [Box.wfb, decide_eq_true_eq] at hwb
        obtain ⟨ht, hs⟩ := hwb
        have hhd : ((be32enc (8 + p.length) ++ t).length) = 8 := by
          simp [be32enc, ht]
        have hdropPre :
            (pre ++ encBoxes (Box.std t p :: rest)).drop pre.length
              = (be32enc (8 + p.length) ++ t) ++ (p ++ encBoxes rest) := by
          rw [drop_append_all _ _ _ rfl, encBoxes_cons]
          simp [Box.encode]
        simp only [nfLoop, hdropPre]
        rw [take_append_all _ _ 8 hhd]
        rw [take_append_all (be32enc (8 + p.length)) t 4 (be32enc_length _)]
        rw [drop_append_all (be32enc (8 + p.length)) t 4 (be32enc_length _)]
        rw [beVal_be32enc _ (by omega)]
        rw [hhd]
        simp only [show ¬ (8 < 8) from by omega, if_false]
        by_cases hmoov : t = moovCode
        · simp [hmoov, mdatFirst, Box.typ]
        · by_cases hmdat : t = mdatCode
          · have hne : ¬ (mdatCode = moovCode) := by decide
            simp [hmoov, hmdat, mdatFirst, Box.typ, hne]
          · have h1 : ¬ (8 + p.length = 1) := by omega
            have h8 : ¬ (8 + p.length < 8) := by omega
            simp only [hmoov, hmdat, h1, h8, if_false]
            have hplen : pre.length + (8 + p.length)
                = (pre ++ (Box.std t p).encode).length := by
              simp [Box.encode_length_std t p ht]
            have hD : pre ++ encBoxes (Box.std t p :: rest)
                = (pre ++ (Box.std t p).encode) ++ encBoxes rest := by
              rw [encBoxes_cons, List.append_assoc]
            rw [hplen, hD]
            simp only [mdatFirst, Box.typ, hmoov, hmdat, if_false]
            exact ih f (pre ++ (Box.std t p).encode) hfr hwrest
      | ext t p =>
        simp only [Box.wfb, decide_eq_true_eq] at hwb
        obtain ⟨ht, hs⟩ := hwb
        have hhd : ((be32enc 1 ++ t).length) = 8 := by
          simp [be32enc, ht]
        have hdropPre :
            (pre ++ encBoxes (Box.ext t p :: rest)).drop pre.length
              = (be32enc 1 ++ t) ++ (be64enc (16 + p.length) ++ (p ++ encBoxes rest)) := by
          rw [drop_append_all _ _ _ rfl, encBoxes_cons]
          simp [Box.encode]
        simp only [nfLoop, hdropPre]
        rw [take_append_all _ _ 8 hhd]
        rw [take_append_all (be32enc 1) t 4 (be32enc_length _)]
        rw [drop_append_all (be32enc 1) t 4 (be32enc_length _)]
        rw [beVal_be32enc 1 (by omega)]
        rw [hhd]
        simp only [show ¬ (8 < 8) from by omega, if_false]
        by_cases hmoov : t = moovCode
        · simp [hmoov, mdatFirst, Box.typ]
        · by_cases hmdat : t = mdatCode
          · have hne : ¬ (mdatCode = moovCode) := by decide
            simp [hmoov, hmdat, mdatFirst, Box.typ, hne]
          · simp only [hmoov, hmdat, if_false, if_true]
            have hdropExt :
                (pre ++ encBoxes (Box.ext t p :: rest)).drop (pre.length + 8)
                  = be64enc (16 + p.length) ++ (p ++ encBoxes rest) := by
              have : pre ++ encBoxes (Box.ext t p :: rest)
                  = (pre ++ (be32enc 1 ++ t))
                    ++ (be64enc (16 + p.length) ++ (p ++ encBoxes rest)) := by
                rw [encBoxes_cons]
                simp [Box.encode]
              rw [this]
              exact drop_append_all _ _ _ (by simp [hhd])
            rw [hdropExt]
            rw [take_append_all (be64enc (16 + p.length)) _ 8 (be64enc_length _)]
            rw [be64enc_length]
            simp only [show ¬ (8 < 8) from by omega, if_false]
            rw [beVal_be64enc _ (by omega)]
            have hplen : pre.length + (16 + p.length)
                = (pre ++ (Box.ext t p).encode).length := by
              simp [Box.encode_length_ext t p ht]
            have hD : pre ++ encBoxes (Box.ext t p :: rest)
                = (pre ++ (Box.ext t p).encode) ++ encBoxes rest := by
              rw [encBoxes_cons, List.append_assoc]
            rw [hplen, hD]
            simp only [mdatFirst, Box.typ, hmoov, hmdat, if_false]
            exact ih f (pre ++ (Box.ext t p).encode) hfr hwrest

/-- C4 (counterexample): the 8-byte input `00 00 00 10 6d 64 61 74` — a
truncated file: a single `mdat` box header whose declared size (16) exceeds
the file length (8) — makes `_needs_faststart` report a defect
(`some true`), contradicting the claim that every truncated or malformed
input reports "no defect". -/
theorem C4_truncated_mdat_reports_defect :
    needs_faststart ([0, 0, 0, 16] ++ mdatCode) = some true
    ∧ ([0, 0, 0, 16] ++ mdatCode).length = 8
    ∧ beVal (([0, 0, 0, 16] ++ mdatCode).take 4) = 16 := by
  decide

/-- C4 (amended): the Box Reader follows the claimed header-walk algorithm
(that walk is the definition `nfLoop`/`needs_faststart`), and on a
well-formed file — a concatenation of boxes, standard or extended-size,
each with a 4-byte type code and an in-range size — it reports "defect"
exactly when the first box of type `moov` or `mdat` is an `mdat`, i.e. when
the `mdat` box precedes any `moov` box. The fail-safe clause holds for runs
that stop on a short read or a size below 8; a truncated input whose scan
reaches an `mdat` header first still reports a defect (see the
counterexample). -/
theorem C4_box_reader_well_formed (bs : List Box) (h : ∀ b ∈ bs, b.wfb = true) :
    needs_faststart (encBoxes bs) = some (mdatFirst bs) := by
  have hlen := encBoxes_length_ge bs
  have hmain := nfLoop_encBoxes bs ((encBoxes bs).length + 1) [] (by omega) h
  simpa using hmain

/-- Witness for C4: a concrete well-formed file with `mdat` before `moov`
is reported as defective. -/
theorem C4_box_reader_well_formed_witness :
    needs_faststart (encBoxes [Box.std mdatCode [1, 2], Box.std moovCode []])
      = some true := by
  have h := C4_box_reader_well_formed
    [Box.std mdatCode [1, 2], Box.std moovCode []] (by decide)
  rw [h]
  decide

/-! ## Streaming Handler: byte-range serving
(`StreamRequestHandler._handle_video_stream`, stream_server.py:900-958, and
`_stream_file`, stream_server.py:1013-1027)

The handler is modeled as a pure function from the file's bytes and the
optional `Range` header to an HTTP response. `send_error(...)` responses
are modeled with their status code and no `Content-Range` header
(`BaseHTTPRequestHandler.send_error` emits an HTML error page and never a
`Content-Range` header); the error page body itself is not modeled
(`body = []`, `contentLength = none`), since no claim concerns it. -/

/-- A `Content-Range` response header: either
`bytes <first>-<last>/<size>` or `bytes */<size>`. -/
inductive ContentRangeHeader where
  | satisfiable (first last size : Nat)
  | unsat (size : Nat)
deriving DecidableEq, Repr

/-- The observable part of the handler's response: status code,
`Content-Range` header (if any), `Content-Length` header (if any), and the
body bytes written to the socket. -/
structure HttpResponse where
  status : Nat
  contentRange : Option ContentRangeHeader
  contentLength : Option Nat
  body : List Nat
deriving DecidableEq, Repr

/-- Decimal-digit accumulation, as Python `int(...)` on a digit string. -/
def natOfDigits (ds : List Char) : Nat :=
  ds.foldl (fun a c => a * 10 + (c.toNat - 48)) 0

/-- `re.match(r"bytes=(\d+)-(\d*)", range_header)`: anchored at the start,
one or more digits, a dash, zero or more digits; trailing characters are
ignored (the regex is not end-anchored). Returns the start and the optional
end. -/
def parseRange (s : List Char) : Option (Nat × Option Nat) :=
  if s.take 6 = ("bytes=").data then
    let rest := s.drop 6
    let ds := rest.takeWhile (fun c => c.isDigit)
    if ds.length = 0 then none
    else
      match rest.drop ds.length with
      | '-' :: rest2 =>
        let es := rest2.takeWhile (fun c => c.isDigit)
        some (natOfDigits ds, if es.length = 0 then none else some (natOfDigits es))
      | _ => none
  else none

/-- The block-read loop of `_stream_file`: read `min(BLOCK_SIZE, remaining)`
bytes at `pos`, stop on a short (empty) read, else append and continue.
`BLOCK_SIZE = 1024 * 1024`. -/
def stream_file_loop (file : List Nat) (pos remaining : Nat) : List Nat :=
  if _hr : remaining = 0 then []
  else
    if _hd : ((file.drop pos).take (min 1048576 remaining)).length = 0 then []
    else
      (file.drop pos).take (min 1048576 remaining) ++
        stream_file_loop file
          (pos + ((file.drop pos).take (min 1048576 remaining)).length)
          (remaining - ((file.drop pos).take (min 1048576 remaining)).length)
termination_by remaining
decreasing_by omega

/-- `StreamRequestHandler._stream_file(file, start, length)`: the bytes
written to the socket. -/
def stream_file (file : List Nat) (start len : Nat) : List Nat :=
  stream_file_loop file start len

/-- `StreamRequestHandler._handle_video_stream`, for a path that passed the
traversal and existence checks, restricted to its range-serving logic.
End-of-range arithmetic is carried out over `Int`, as in Python
(`file_size - 1` may be `-1` on an empty file). -/
def handle_video_stream (file : List Nat) (rangeHeader : Option (List Char)) :
    HttpResponse :=
  let file_size := file.length
  match rangeHeader with
  | none =>
    { status := 200, contentRange := none, contentLength := some file_size,
      body := stream_file file 0 file_size }
  | some h =>
    match parseRange h with
    | none =>
      { status := 416, contentRange := none, contentLength := none, body := [] }
    | some (start, endOpt) =>
      let endReq : Int :=
        match endOpt with
        | some e => (e : Int)
        | none => (file_size : Int) - 1
      let endClamped : Int := min endReq ((file_size : Int) - 1)
      if (start : Int) > endClamped ∨ (start : Int) ≥ (file_size : Int) then
        { status := 416, contentRange := some (.unsat file_size),
          contentLength := none, body := [] }
      else
        let chunk : Nat := (endClamped + 1 - (start : Int)).toNat
        { status := 206,
          contentRange := some (.satisfiable start endClamped.toNat file_size),
          contentLength := some chunk,
          body := stream_file file start chunk }

/-- When the requested span lies inside the file, the block loop delivers
exactly the span `[pos, pos + remaining)`. -/
theorem stream_file_loop_eq (file : List Nat) :
    ∀ (remaining pos : Nat), pos + remaining ≤ file.length →
      stream_file_loop file pos remaining = (file.drop pos).take remaining := by
  intro remaining
  induction remaining using Nat.strong_induction_on with
  | _ remaining ih =>
    intro pos hle
    rw [stream_file_loop]
    by_cases hr : remaining = 0
    · simp [hr]
    · have hm : min 1048576 remaining ≤ remaining := Nat.min_le_right _ _
      have hdl : (file.drop pos).length = file.length - pos := List.length_drop _ _
      have hlen : ((file.drop pos).take (min 1048576 remaining)).length
          = min 1048576 remaining := by
        rw [List.length_take_of_le]
        omega
      have hpos : 0 < min 1048576 remaining := by
        have : 0 < remaining := Nat.pos_of_ne_zero hr
        omega
      have hne : ¬ ((file.drop pos).take (min 1048576 remaining)).length = 0 := by
        omega
      simp only [hr, hne, dite_false]
      rw [hlen]
      rw [ih (remaining - min 1048576 remaining) (by omega) (pos + min 1048576 remaining)
        (by omega)]
      have hsplit := List.take_add (file.drop pos) (min 1048576 remaining)
        (remaining - min 1048576 remaining)
      rw [Nat.add_sub_cancel' hm] at hsplit
      rw [hsplit, List.drop_drop]

/-- The whole-span version at the handler's call sites. -/
theorem stream_file_eq (file : List Nat) (start len : Nat)
    (h : start + len ≤ file.length) :
    stream_file file start len = (file.drop start).take len :=
  stream_file_loop_eq file len start h

/-- The effective (clamped) end of a range request against a file of
`size` bytes: an absent end defaults to end-of-file, an over-large end is
clamped to `size - 1`. Specification-side counterpart of the handler's
`end = min(end, file_size - 1)`. -/
def effEnd (size : Nat) (endOpt : Option Nat) : Nat :=
  min (endOpt.getD (size - 1)) (size - 1)

/-- Characterization of the handler on a header that parses: the response
is the 416 `bytes */size` form exactly when the start lies beyond the
clamped end or at/past the file size, and the 206 partial-content form
otherwise. -/
theorem handle_video_stream_parsed (file : List Nat) (hdr : List Char)
    (start : Nat) (endOpt : Option Nat)
    (hp : parseRange hdr = some (start, endOpt)) :
    handle_video_stream file (some hdr) =
      if start > effEnd file.length endOpt ∨ start ≥ file.length then
        { status := 416, contentRange := some (.unsat file.length),
          contentLength := none, body := [] }
      else
        { status := 206,
          contentRange := some
            (.satisfiable start (effEnd file.length endOpt) file.length),
          contentLength := some (effEnd file.length endOpt - start + 1),
          body := stream_file file start (effEnd file.length endOpt - start + 1) } := by
  simp only [handle_video_stream, hp]
  by_cases hc : start > effEnd file.length endOpt ∨ start ≥ file.length
  · rw [if_pos hc]
    rw [if_pos]
    cases endOpt with
    | none => simp only [effEnd, Option.getD] at hc ⊢; omega
    | some ev => simp only [effEnd, Option.getD] at hc ⊢; omega
  · rw [if_neg hc]
    rw [if_neg]
    · cases endOpt with
      | none =>
        simp only [effEnd, Option.getD] at hc ⊢
        have h1 : (min ((file.length : Int) - 1) ((file.length : Int) - 1)).toNat
            = min (file.length - 1) (file.length - 1) := by omega
        have h2 : (min ((file.length : Int) - 1) ((file.length : Int) - 1) + 1
            - (start : Int)).toNat = min (file.length - 1) (file.length - 1) - start + 1 := by
          omega
        rw [h1, h2]
      | some ev =>
        simp only [effEnd, Option.getD] at hc ⊢
        have h1 : (min ((ev : Int)) ((file.length : Int) - 1)).toNat
            = min ev (file.length - 1) := by omega
        have h2 : (min ((ev : Int)) ((file.length : Int) - 1) + 1
            - (start : Int)).toNat = min ev (file.length - 1) - start + 1 := by
          omega
        rw [h1, h2]
    · cases endOpt with
      | none => simp only [effEnd, Option.getD] at hc ⊢; omega
      | some ev => simp only [effEnd, Option.getD] at hc ⊢; omega

/-- C1: for every satisfiable range request (header parsing to `start` with
optional end, the effective end being the absent-end default / clamped
value, `start ≤ effEnd < size`), the video endpoint responds 206 with
`Content-Range: bytes start-effEnd/size`, `Content-Length = effEnd-start+1`
and a body equal to the byte slice `[start, effEnd]` of the source file;
and a request without a Range header responds 200 with the whole file. -/
theorem C1_range_request_serves_exact_slice (file : List Nat) (hdr : List Char)
    (start : Nat) (endOpt : Option Nat)
    (hp : parseRange hdr = some (start, endOpt))
    (hstart : start < file.length)
    (hse : start ≤ effEnd file.length endOpt) :
    handle_video_stream file (some hdr) =
      { status := 206,
        contentRange := some
          (.satisfiable start (effEnd file.length endOpt) file.length),
        contentLength := some (effEnd file.length endOpt - start + 1),
        body := (file.drop start).take (effEnd file.length endOpt - start + 1) }
    ∧ ((file.drop start).take (effEnd file.length endOpt - start + 1)).length
        = effEnd file.length endOpt - start + 1
    ∧ handle_video_stream file none =
      { status := 200, contentRange := none,
        contentLength := some file.length, body := file } := by
  have heff : effEnd file.length endOpt ≤ file.length - 1 := Nat.min_le_right _ _
  refine ⟨?_, ?_, ?_⟩
  · rw [handle_video_stream_parsed file hdr start endOpt hp]
    rw [if_neg (by omega)]
    rw [stream_file_eq file start (effEnd file.length endOpt - start + 1) (by omega)]
  · rw [List.length_take_of_le]
    rw [List.length_drop]
    omega
  · simp only [handle_video_stream]
    rw [stream_file_eq file 0 file.length (by omega)]
    simp

/-- Witness for C1 on the concrete file `[10, 20, 30, 40, 50]` and header
`bytes=1-3`. -/
theorem C1_range_request_serves_exact_slice_witness :
    handle_video_stream [10, 20, 30, 40, 50] (some (("bytes=1-3").data)) =
      { status := 206, contentRange := some (.satisfiable 1 3 5),
        contentLength := some 3, body := [20, 30, 40] } := by
  have h := C1_range_request_serves_exact_slice [10, 20, 30, 40, 50]
    (("bytes=1-3").data) 1 (some 3) (by decide) (by decide) (by decide)
  rw [h.1]
  decide

/-- C3 (counterexample): a malformed Range header (`bytes=junk`) is
answered through `send_error(416)`, which carries no `Content-Range`
header at all — the claim that every 416 response carries
`Content-Range: bytes */size` is false. -/
theorem C3_malformed_range_lacks_content_range :
    (handle_video_stream [42] (some (("bytes=junk").data))).status = 416
    ∧ (handle_video_stream [42] (some (("bytes=junk").data))).contentRange
        = none := by
  decide

/-- C3 (amended): every response to a request carrying a Range header has
status 206 or 416; a header that parses yields either the 206 form with
`Content-Range: bytes start-effEnd/size`, or — exactly when start is at or
beyond the file size or exceeds the clamped end — the 416 form with
`Content-Range: bytes */size`; a malformed header yields 416 with no
`Content-Range` header. -/
theorem C3_range_response_forms (file : List Nat) (hdr : List Char) :
    ((handle_video_stream file (some hdr)).status = 206
      ∨ (handle_video_stream file (some hdr)).status = 416)
    ∧ (parseRange hdr = none →
        handle_video_stream file (some hdr) =
          { status := 416, contentRange := none, contentLength := none,
            body := [] })
    ∧ (∀ start endOpt, parseRange hdr = some (start, endOpt) →
        (start > effEnd file.length endOpt ∨ start ≥ file.length →
          handle_video_stream file (some hdr) =
            { status := 416, contentRange := some (.unsat file.length),
              contentLength := none, body := [] })
        ∧ (¬ (start > effEnd file.length endOpt ∨ start ≥ file.length) →
          (handle_video_stream file (some hdr)).status = 206
          ∧ (handle_video_stream file (some hdr)).contentRange
              = some (.satisfiable start (effEnd file.length endOpt)
                  file.length))) := by
  refine ⟨?_, ?_, ?_⟩
  · cases hp : parseRange hdr with
    | none => right; simp [handle_video_stream, hp]
    | some pr =>
      obtain ⟨start, endOpt⟩ := pr
      rw [handle_video_stream_parsed file hdr start endOpt hp]
      by_cases hc : start > effEnd file.length endOpt ∨ start ≥ file.length
      · right; rw [if_pos hc]
      · left; rw [if_neg hc]
  · intro hp
    simp [handle_video_stream, hp]
  · intro start endOpt hp
    rw [handle_video_stream_parsed file hdr start endOpt hp]
    constructor
    · intro hc; rw [if_pos hc]
    · intro hc; rw [if_neg hc]; exact ⟨rfl, rfl⟩

/-- Witness for C3 on a one-byte file: `bytes=5-` starts beyond the file
and draws the 416 `bytes */1` form. -/
theorem C3_range_response_forms_witness :
    handle_video_stream [42] (some (("bytes=5-").data)) =
      { status := 416, contentRange := some (.unsat 1),
        contentLength := none, body := [] } := by
  have h := C3_range_response_forms [42] (("bytes=5-").data)
  exact (h.2.2 5 none (by decide)).1 (by decide)

/-! ## Path containment guard
(`_handle_video_stream` stream_server.py:900-910 and `_handle_subtitle`
stream_server.py:880-889)

Both handlers compute
`full_path = (video_folder / relative_path).resolve()` and reject with 403
unless `str(full_path).startswith(str(video_folder))` — a **string** prefix
test, not a path-component test. Paths are modeled as lists of components
under an absolute resolved root; `resolve()` is modeled as the usual
lexical normalization (drop `.` and empty components, let `..` pop), which
matches `pathlib` in the absence of symlinks. The model covers relative
paths not beginning with a slash, which is the shape the router produces
by stripping the `/video/` or `/subs/` prefix. -/

/-- `startswith` / list-prefix test, executable by kernel reduction. -/
def isPrefixL {α : Type} [DecidableEq α] : List α → List α → Bool
  | [], _ => true
  | _ :: _, [] => false
  | a :: as, b :: bs => if a = b then isPrefixL as bs else false

/-- `"…".split("/")` — split a character list on `/`. -/
def splitSlash : List Char → List (List Char)
  | [] => [[]]
  | c :: rest =>
    match splitSlash rest with
    | [] => [[c]]
    | h :: t => if c = '/' then [] :: h :: t else (c :: h) :: t

/-- `Path.resolve()` on a component sequence: empty and `.` components
vanish, `..` pops the previous component (at the root it stays put). -/
def resolveComponents (cs : List (List Char)) : List (List Char) :=
  cs.foldl (fun acc c =>
    if c = [] ∨ c = ('.').toString.data then acc
    else if c = ("..").data then acc.dropLast
    else acc ++ [c]) []

/-- `str(path)` of an absolute path given by its components. -/
def pathStr (cs : List (List Char)) : List Char :=
  cs.foldl (fun acc c => acc ++ '/' :: c) []

/-- `(video_folder / relative_path).resolve()` with `video_folder` already
resolved to the component list `root`. -/
def resolvedRequestPath (root : List (List Char)) (rel : List Char) :
    List (List Char) :=
  resolveComponents (root ++ splitSlash rel)

/-- The handlers' guard, verbatim:
`str(full_path).startswith(str(video_folder))`. -/
def passes_root_check (root : List (List Char)) (rel : List Char) : Bool :=
  isPrefixL (pathStr root) (pathStr (resolvedRequestPath root rel))

/-- Semantic containment: the resolved request path is inside the watched
root (component-wise). -/
def insideRoot (root : List (List Char)) (rel : List Char) : Bool :=
  isPrefixL root (resolvedRequestPath root rel)

/-- The `/video/` (and `/subs/`) access decision: 403 when the string
prefix check fails, else 404 when the target does not exist, else serve
(represented as 200). -/
def video_route_status (root : List (List Char)) (rel : List Char)
    (fileExists : Bool) : Nat :=
  if ¬ passes_root_check root rel then 403
  else if ¬ fileExists then 404
  else 200

/-- C2 (code bug): with watched root `/data/videos`, the request path
`../videos2/secret.mp4` resolves to `/data/videos2/secret.mp4` — outside
the watched root — yet the string-prefix guard passes (`"/data/videos2/…"`
starts with `"/data/videos"`), so the handler proceeds to serve the file
instead of responding 403 as the claim requires. The 404 half of the claim
(inside the root, file missing) behaves as claimed. -/
theorem C2_sibling_directory_escapes_root_check :
    insideRoot [("data").data, ("videos").data] (("../videos2/secret.mp4").data)
        = false
    ∧ video_route_status [("data").data, ("videos").data]
        (("../videos2/secret.mp4").data) true = 200
    ∧ pathStr (resolvedRequestPath [("data").data, ("videos").data]
        (("../videos2/secret.mp4").data)) = ("/data/videos2/secret.mp4").data
    ∧ video_route_status [("data").data, ("videos").data]
        (("sub/clip.mp4").data) false = 404 := by
  decide

/-! ## Pipeline worker: temporary outputs and atomic commits
(`AutoConverter._fix_faststart` stream_server.py:240-280,
`AutoConverter._compress_video` stream_server.py:295-348,
`AutoConverter._convert_one` stream_server.py:539-645 (its ffmpeg-run and
commit part — the preceding subtitle extraction writes only `.vtt` sidecar
files and never touches the source, the temp path or the output path),
and the batch converter `convert_videos.py` `main` loop, lines 225-239)

The filesystem is a map from path strings to byte contents. The ffmpeg
invocation is an oracle: its outcome (exit code / timeout / raised
exception) and the bytes it left at the temporary path, if any. -/

/-- An in-memory filesystem: path → file bytes (`none` = no such file). -/
abbrev FS : Type := String → Option (List Nat)

/-- The empty filesystem. -/
def FS.empty : FS := fun _ => none

/-- Does path `p` exist? -/
def FS.exists (fs : FS) (p : String) : Bool := (fs p).isSome

/-- Create/overwrite the file at `p` with content `c`. -/
def FS.write (fs : FS) (p : String) (c : List Nat) : FS :=
  fun q => if q = p then some c else fs q

/-- `Path.unlink()`. -/
def FS.unlink (fs : FS) (p : String) : FS :=
  fun q => if q = p then none else fs q

/-- `Path.rename(src → dst)`. -/
def FS.rename (fs : FS) (src dst : String) : FS :=
  fun q => if q = dst then fs src else if q = src then none else fs q

/-- How a `subprocess.run` ffmpeg invocation ended. -/
inductive RunOutcome where
  | completed (returncode : Int)
  | timedOut
  | raised
deriving DecidableEq, Repr

/-- An ffmpeg invocation as seen by the worker: its outcome and whatever
bytes it left at its output path (in any outcome, a partial file may have
been written). -/
structure ProcRun where
  outcome : RunOutcome
  written : Option (List Nat)
deriving DecidableEq, Repr

/-- Apply the process's side effect on its output path. -/
def run_transcode (fs : FS) (out : String) (r : ProcRun) : FS :=
  match r.written with
  | some c => fs.write out c
  | none => fs

/-- `_fix_faststart`: ffmpeg writes `temp`; on exit 0 with `temp` present,
unlink the mp4 and rename `temp` onto it; on any other outcome (nonzero
exit, timeout, exception) delete `temp` if present. -/
def fix_faststart (fs : FS) (mp4 temp : String) (r : ProcRun) : FS :=
  let fs1 := run_transcode fs temp r
  match r.outcome with
  | .completed code =>
    if code = 0 ∧ fs1.exists temp then (fs1.unlink mp4).rename temp mp4
    else if fs1.exists temp then fs1.unlink temp else fs1
  | _ => if fs1.exists temp then fs1.unlink temp else fs1

/-- `_compress_video`: identical commit/cleanup structure (different ffmpeg
arguments and temp name, no difference in filesystem semantics). -/
def compress_video (fs : FS) (mp4 temp : String) (r : ProcRun) : FS :=
  let fs1 := run_transcode fs temp r
  match r.outcome with
  | .completed code =>
    if code = 0 ∧ fs1.exists temp then (fs1.unlink mp4).rename temp mp4
    else if fs1.exists temp then fs1.unlink temp else fs1
  | _ => if fs1.exists temp then fs1.unlink temp else fs1

set_option linter.unusedVariables false in
/-- `_convert_one` (commit part): ffmpeg writes `temp`; on exit 0 with
`temp` present, rename `temp` onto `output` (`input.with_suffix(".mp4")`);
on any other outcome delete `temp` if present. The `input` file is never
touched. -/
def convert_one (fs : FS) (input output temp : String) (r : ProcRun) : FS :=
  let fs1 := run_transcode fs temp r
  match r.outcome with
  | .completed code =>
    if code = 0 ∧ fs1.exists temp then fs1.rename temp output
    else if fs1.exists temp then fs1.unlink temp else fs1
  | _ => if fs1.exists temp then fs1.unlink temp else fs1

/-- A batch-converter `convert_file` invocation (convert_videos.py): no
timeout is passed, so the only outcomes are exit codes; ffmpeg writes the
final output path directly. -/
structure CliRun where
  returncode : Int
  written : Option (List Nat)
deriving DecidableEq, Repr

/-- One iteration of the batch converter's conversion loop
(convert_videos.py:225-239): ffmpeg writes `output` directly; on exit 0 the
source is renamed to `bak` (`input.with_suffix(input.suffix + ".bak")`);
otherwise the partial `output` is deleted if present. -/
def cli_convert_step (fs : FS) (input output bak : String) (r : CliRun) : FS :=
  let fs1 := match r.written with
    | some c => fs.write output c
    | none => fs
  if r.returncode = 0 then fs1.rename input bak
  else if fs1.exists output then fs1.unlink output else fs1

/-- The commit condition of the pipeline tasks: zero exit code and the
temporary output present. -/
def commit_ok (r : ProcRun) : Prop :=
  r.outcome = .completed 0 ∧ r.written.isSome

instance (r : ProcRun) : Decidable (commit_ok r) := by
  unfold commit_ok; infer_instance

/-- C5: every pipeline task (`_fix_faststart`, `_compress_video`,
`_convert_one`) writes to a temporary path and commits — renames the
temporary output onto the final name — exactly when the transcoder exits 0
and the temporary output exists; on every other outcome (nonzero exit,
timeout, exception, missing output) the temporary output is gone afterwards
and the source file is unchanged. -/
theorem C5_commit_iff_zero_exit_and_output (fs : FS)
    (mp4 input output temp : String) (r : ProcRun)
    (htm : temp ≠ mp4) (hto : temp ≠ output) (hit : input ≠ temp)
    (hio : input ≠ output) (hfresh : fs temp = none) :
    (commit_ok r →
      fix_faststart fs mp4 temp r mp4 = r.written
      ∧ fix_faststart fs mp4 temp r temp = none
      ∧ compress_video fs mp4 temp r mp4 = r.written
      ∧ compress_video fs mp4 temp r temp = none
      ∧ convert_one fs input output temp r output = r.written
      ∧ convert_one fs input output temp r temp = none
      ∧ convert_one fs input output temp r input = fs input)
    ∧ (¬ commit_ok r →
      fix_faststart fs mp4 temp r mp4 = fs mp4
      ∧ fix_faststart fs mp4 temp r temp = none
      ∧ compress_video fs mp4 temp r mp4 = fs mp4
      ∧ compress_video fs mp4 temp r temp = none
      ∧ convert_one fs input output temp r output = fs output
      ∧ convert_one fs input output temp r temp = none
      ∧ convert_one fs input output temp r input = fs input) := by
  have hmt : mp4 ≠ temp := Ne.symm htm
  have hot : output ≠ temp := Ne.symm hto
  have hti : temp ≠ input := Ne.symm hit
  have hoi : output ≠ input := Ne.symm hio
  obtain ⟨oc, w⟩ := r
  constructor
  · rintro ⟨hoc, hw⟩
    simp only at hoc
    subst hoc
    obtain ⟨c, rfl⟩ := Option.isSome_iff_exists.mp hw
    simp [fix_faststart, compress_video, convert_one, run_transcode,
      FS.write, FS.unlink, FS.rename, FS.exists, htm, hmt, hto, hot, hit,
      hti, hio, hoi]
  · intro hnc
    simp only [commit_ok] at hnc
    cases oc with
    | completed code =>
      cases w with
      | some c =>
        have hcode : ¬ code = 0 := by
          intro h; subst h; exact hnc ⟨rfl, rfl⟩
        simp [fix_faststart, compress_video, convert_one, run_transcode,
          FS.write, FS.unlink, FS.rename, FS.exists, hcode, htm, hmt, hto,
          hot, hit, hti, hio, hoi, hfresh]
      | none =>
        simp [fix_faststart, compress_video, convert_one, run_transcode,
          FS.write, FS.unlink, FS.rename, FS.exists, hfresh]
    | timedOut =>
      cases w with
      | some c =>
        simp [fix_faststart, compress_video, convert_one, run_transcode,
          FS.write, FS.unlink, FS.rename, FS.exists, htm, hmt, hto, hot,
          hit, hti, hio, hoi, hfresh]
      | none =>
        simp [fix_faststart, compress_video, convert_one, run_transcode,
          FS.write, FS.unlink, FS.rename, FS.exists, hfresh]
    | raised =>
      cases w with
      | some c =>
        simp [fix_faststart, compress_video, convert_one, run_transcode,
          FS.write, FS.unlink, FS.rename, FS.exists, htm, hmt, hto, hot,
          hit, hti, hio, hoi, hfresh]
      | none =>
        simp [fix_faststart, compress_video, convert_one, run_transcode,
          FS.write, FS.unlink, FS.rename, FS.exists, hfresh]

/-- Witness for C5: concrete successful faststart fix commits the temp
content onto the mp4 path. -/
theorem C5_commit_iff_zero_exit_and_output_witness :
    fix_faststart (FS.empty.write ("v.mp4") [1]) ("v.mp4") ("_t.mp4")
      ⟨.completed 0, some [7]⟩ ("v.mp4") = some [7] := by
  have h := (C5_commit_iff_zero_exit_and_output
    (FS.empty.write ("v.mp4") [1]) ("v.mp4") ("s.mkv") ("s.mp4") ("_t.mp4")
    ⟨.completed 0, some [7]⟩ (by decide) (by decide) (by decide) (by decide)
    (by decide)).1 ⟨rfl, rfl⟩
  exact h.1

/-- C8 (counterexample): a completed, successful background conversion
(`_convert_one`) of `movie.mkv` leaves the original in place under its
original name and creates no `movie.mkv.bak` — the old source file is
*not* renamed with a backup suffix, contrary to the claim. -/
theorem C8_pipeline_conversion_keeps_source_name :
    convert_one (FS.empty.write ("movie.mkv") [1, 2, 3]) ("movie.mkv")
        ("movie.mp4") ("_convert_temp.mp4") ⟨.completed 0, some [9]⟩
        ("movie.mkv") = some [1, 2, 3]
    ∧ convert_one (FS.empty.write ("movie.mkv") [1, 2, 3]) ("movie.mkv")
        ("movie.mp4") ("_convert_temp.mp4") ⟨.completed 0, some [9]⟩
        ("movie.mkv.bak") = none
    ∧ convert_one (FS.empty.write ("movie.mkv") [1, 2, 3]) ("movie.mkv")
        ("movie.mp4") ("_convert_temp.mp4") ⟨.completed 0, some [9]⟩
        ("movie.mp4") = some [9] := by
  decide

/-- C8 (amended): in the batch converter (`convert_videos.py`), a
successful conversion renames the old source to the `.bak` backup name
(its bytes preserved), removes it from its original name, and the new
browser-native output holds the transcoder's bytes; in the background
pipeline (`_convert_one`), a successful conversion creates the new
browser-native output but the old source keeps its original name — only
the temporary path and the output path change at all. -/
theorem C8_backup_rename_semantics (fs : FS) (input output bak temp : String)
    (r : CliRun) (rp : ProcRun)
    (hio : input ≠ output) (hib : input ≠ bak) (hob : output ≠ bak) :
    (r.returncode = 0 →
      cli_convert_step fs input output bak r bak = fs input
      ∧ cli_convert_step fs input output bak r input = none
      ∧ (∀ c, r.written = some c →
          cli_convert_step fs input output bak r output = some c))
    ∧ (commit_ok rp →
      convert_one fs input output temp rp output = rp.written
      ∧ (∀ p, p ≠ temp → p ≠ output →
          convert_one fs input output temp rp p = fs p)) := by
  have hoi : output ≠ input := Ne.symm hio
  have hbi : bak ≠ input := Ne.symm hib
  have hbo : bak ≠ output := Ne.symm hob
  constructor
  · intro hrc
    obtain ⟨code, w⟩ := r
    simp only at hrc
    subst hrc
    refine ⟨?_, ?_, ?_⟩
    · cases w with
      | some c =>
        simp [cli_convert_step, FS.write, FS.rename, hio, hoi, hib, hbi,
          hob, hbo]
      | none => simp [cli_convert_step, FS.rename, hib, hbi]
    · cases w with
      | some c =>
        simp [cli_convert_step, FS.write, FS.rename, hio, hoi, hib, hbi,
          hob, hbo]
      | none => simp [cli_convert_step, FS.rename, hib, hbi]
    · intro c hc
      simp only at hc
      subst hc
      simp [cli_convert_step, FS.write, FS.rename, hio, hoi, hib, hbi,
        hob, hbo]
  · rintro ⟨hoc, hw⟩
    obtain ⟨oc, w⟩ := rp
    simp only at hoc
    subst hoc
    obtain ⟨c, rfl⟩ := Option.isSome_iff_exists.mp hw
    refine ⟨?_, ?_⟩
    · simp [convert_one, run_transcode, FS.write, FS.rename, FS.exists]
    · intro p hpt hpo
      simp [convert_one, run_transcode, FS.write, FS.rename, FS.exists,
        hpt, hpo]

/-- Witness for C8: concrete batch conversion of `a.mkv` with exit 0 —
the backup name holds the original bytes. -/
theorem C8_backup_rename_semantics_witness :
    cli_convert_step (FS.empty.write ("a.mkv") [5]) ("a.mkv") ("a.mp4")
      ("a.mkv.bak") ⟨0, some [6]⟩ ("a.mkv.bak") = some [5] := by
  have h := (C8_backup_rename_semantics (FS.empty.write ("a.mkv") [5])
    ("a.mkv") ("a.mp4") ("a.mkv.bak") ("_convert_temp.mp4")
    ⟨0, some [6]⟩ ⟨.completed 0, some [6]⟩
    (by decide) (by decide) (by decide)).1 rfl
  exact h.1

/-! ## Catalog Scanner (`VideoScanner.scan`, stream_server.py:662-744)

A file of the watched tree is modeled by its parent-directory components
(relative to the root), its Python `Path.stem` and `Path.suffix`, and its
byte size. Subtitle/audio-track attachment and the human-readable size
string are not modeled: no claim concerns entry metadata beyond identity,
extension, playability and folder. The input list stands for
`sorted(rglob("*"))` restricted to regular files. -/

/-- `str.lower()`, modeled per character (extensions are ASCII). The
library `String.toLower` is semantically identical but its position-based
recursion does not reduce in the kernel. -/
def lowerStr (s : String) : String := String.mk (s.data.map Char.toLower)

/-- One regular file of the watched tree. -/
structure SrcFile where
  parent : List String
  stem : String
  ext : String
  size : Nat
deriving DecidableEq, Repr

/-- `Path.name` = stem + suffix. -/
def SrcFile.name (f : SrcFile) : String := f.stem ++ f.ext

/-- `file_path.name.startswith("_")`. -/
def SrcFile.underscored (f : SrcFile) : Bool :=
  match f.name.data with
  | [] => false
  | c :: _ => c = '_'

/-- First pass of `scan`: extension allow-list (the configured sets are
lower-cased at construction) and exclusion of `_`-prefixed temp files. -/
def visibleFiles (tree : List SrcFile) (supported : List String) :
    List SrcFile :=
  tree.filter fun f => lowerStr f.ext ∈ supported ∧ ¬ f.underscored

/-- `mp4_stems`: the (parent, stem) pairs that have an `.mp4` file. -/
def mp4Stems (files : List SrcFile) : List (List String × String) :=
  (files.filter fun f => lowerStr f.ext = ".mp4").map fun f => (f.parent, f.stem)

/-- The files that survive the second pass: an `.mkv`/`.avi`/`.mov` file is
dropped when an `.mp4` with the same (parent, stem) is visible. -/
def scanKept (tree : List SrcFile) (supported : List String) : List SrcFile :=
  (visibleFiles tree supported).filter fun f =>
    ¬ (lowerStr f.ext ∈ [(".mkv"), (".avi"), (".mov")]
        ∧ (f.parent, f.stem) ∈ mp4Stems (visibleFiles tree supported))

/-- A produced catalog entry (identity-relevant fields; the relative path
is kept as its component list, which the code renders `/`-joined). -/
structure CatalogEntry where
  name : String
  filename : String
  path : List String
  size : Nat
  extension : String
  playable : Bool
  folder : String
deriving DecidableEq, Repr

/-- The entry built for one kept file. -/
def mkEntry (browser : List String) (f : SrcFile) : CatalogEntry :=
  { name := f.stem
    filename := f.name
    path := f.parent ++ [f.name]
    size := f.size
    extension := lowerStr f.ext
    playable := lowerStr f.ext ∈ browser
    folder := match f.parent with | [] => "" | d :: _ => d }

/-- `VideoScanner.scan`. -/
def scan (tree : List SrcFile) (supported browser : List String) :
    List CatalogEntry :=
  (scanKept tree supported).map (mkEntry browser)

/-- The default configured extension sets (`load_config`). -/
def defaultSupported : List String := [".mp4", ".mkv", ".avi", ".mov", ".webm"]

/-- The default browser-playable set. -/
def defaultBrowser : List String := [".mp4", ".webm"]

/-- C6 (counterexample): a directory holding `movie.mkv` and `movie.avi`
(no `.mp4`) yields **two** catalog entries with the same (parent, stem) —
the "at most one entry per logical asset" invariant fails; likewise
`movie.webm` + `movie.mkv` keeps the legacy `.mkv` next to the
browser-native `.webm`. -/
theorem C6_duplicate_stem_entries :
    (scan [⟨[], "movie", ".mkv", 100⟩, ⟨[], "movie", ".avi", 100⟩]
        defaultSupported defaultBrowser).map CatalogEntry.name
      = ["movie", "movie"]
    ∧ (scan [⟨[], "movie", ".webm", 100⟩, ⟨[], "movie", ".mkv", 100⟩]
        defaultSupported defaultBrowser).map CatalogEntry.extension
      = [".webm", ".mkv"] := by
  decide

/-- C6 (amended): the dedup rule actually implemented is `.mp4`-specific:
whenever a visible `.mp4` and a visible legacy-container file
(`.mkv`/`.avi`/`.mov`) share (parent, stem), the legacy file is dropped and
the `.mp4` is kept — in particular `movie.mkv` + `movie.mp4` lists only the
`.mp4`. Two browser-native containers with the same stem, or two legacy
containers without an `.mp4` sibling, may both be listed. -/
theorem C6_mp4_dedup (tree : List SrcFile) (supported browser : List String)
    (f g : SrcFile)
    (hleg : lowerStr f.ext ∈ [(".mkv"), (".avi"), (".mov")])
    (hg : g ∈ visibleFiles tree supported)
    (hgmp4 : lowerStr g.ext = ".mp4")
    (hgp : g.parent = f.parent) (hgs : g.stem = f.stem) :
    f ∉ scanKept tree supported
    ∧ g ∈ scanKept tree supported
    ∧ scan tree supported browser = (scanKept tree supported).map (mkEntry browser) := by
  refine ⟨?_, ?_, rfl⟩
  · intro hf
    have hmem := (List.mem_filter.mp hf).2
    simp only [decide_eq_true_eq, not_and, Decidable.not_not] at hmem
    have hstem : (f.parent, f.stem) ∈ mp4Stems (visibleFiles tree supported) := by
      simp only [mp4Stems, List.mem_map, List.mem_filter]
      exact ⟨g, ⟨hg, by simp [hgmp4]⟩, by rw [hgp, hgs]⟩
    exact absurd hstem (by simpa using hmem hleg)
  · rw [scanKept, List.mem_filter]
    refine ⟨hg, ?_⟩
    simp only [decide_eq_true_eq, not_and]
    intro hcon
    rw [hgmp4] at hcon
    simp at hcon

/-- Witness for C6: concrete `movie.mkv` + `movie.mp4` directory — only
the `.mp4` survives. -/
theorem C6_mp4_dedup_witness :
    (⟨[], "movie", ".mkv", 100⟩ : SrcFile) ∉
      scanKept [⟨[], "movie", ".mkv", 100⟩, ⟨[], "movie", ".mp4", 90⟩]
        defaultSupported
    ∧ (⟨[], "movie", ".mp4", 90⟩ : SrcFile) ∈
      scanKept [⟨[], "movie", ".mkv", 100⟩, ⟨[], "movie", ".mp4", 90⟩]
        defaultSupported := by
  have h := C6_mp4_dedup
    [⟨[], "movie", ".mkv", 100⟩, ⟨[], "movie", ".mp4", 90⟩]
    defaultSupported defaultBrowser
    ⟨[], "movie", ".mkv", 100⟩ ⟨[], "movie", ".mp4", 90⟩
    (by decide) (by decide) (by decide) (by decide) (by decide)
  exact ⟨h.1, h.2.1⟩

/-! ## BitrateCompress classifier
(`AutoConverter._find_needs_compression`, stream_server.py:282-293, and
`_get_video_bitrate`, stream_server.py:124-138)

The ffprobe bitrate probe is an oracle `SrcFile → Nat`; per
`_get_video_bitrate`, a probe failure, a missing ffprobe or non-numeric
output is reported as `0`. The scan runs over `rglob("*.mp4")`, i.e. files
whose suffix is `.mp4`. -/

/-- `AutoConverter.MAX_BITRATE` (4 Mbps). -/
def MAX_BITRATE : Nat := 4000000

/-- `_find_needs_compression`. -/
def find_needs_compression (tree : List SrcFile) (bitrate : SrcFile → Nat) :
    List SrcFile :=
  tree.filter fun f =>
    f.ext = ".mp4" ∧ ¬ f.underscored ∧ bitrate f > MAX_BITRATE

/-- C9 (counterexample): a browser-native `.webm` probed at 10 Mbps — far
above the 4 Mbps ceiling — is never selected for compression, because the
scan only globs `*.mp4`; the claim quantifies over every browser-native
file and demands selection here. -/
theorem C9_webm_never_selected :
    find_needs_compression [⟨[], "movie", ".webm", 100⟩]
        (fun _ => 10000000) = []
    ∧ (".webm" ∈ defaultBrowser) ∧ 10000000 > MAX_BITRATE := by
  decide

/-- C9 (amended): an **`.mp4`** file (not underscore-prefixed) is selected
for bitrate compression exactly when its probed overall bitrate exceeds the
4 Mbps ceiling; an unknown bitrate (probe failure, reported 0) never
selects; non-`.mp4` files — including browser-native `.webm` — are never
scanned. -/
theorem C9_mp4_bitrate_selection (tree : List SrcFile)
    (bitrate : SrcFile → Nat) (f : SrcFile) :
    (f ∈ find_needs_compression tree bitrate ↔
      f ∈ tree ∧ f.ext = ".mp4" ∧ ¬ f.underscored ∧ bitrate f > MAX_BITRATE)
    ∧ (bitrate f = 0 → f ∉ find_needs_compression tree bitrate)
    ∧ (f.ext ≠ ".mp4" → f ∉ find_needs_compression tree bitrate) := by
  have hiff : f ∈ find_needs_compression tree bitrate ↔
      f ∈ tree ∧ f.ext = ".mp4" ∧ ¬ f.underscored ∧ bitrate f > MAX_BITRATE := by
    simp [find_needs_compression, List.mem_filter]
  refine ⟨hiff, ?_, ?_⟩
  · intro h0 hmem
    have := (hiff.mp hmem).2.2.2
    rw [h0] at this
    simp [MAX_BITRATE] at this
  · intro hne hmem
    exact hne (hiff.mp hmem).2.1

/-- Witness for C9: a 10 Mbps `.mp4` is selected; the same file with an
unknown (0) bitrate is not. -/
theorem C9_mp4_bitrate_selection_witness :
    (⟨[], "big", ".mp4", 100⟩ : SrcFile) ∈
      find_needs_compression [⟨[], "big", ".mp4", 100⟩] (fun _ => 10000000)
    ∧ (⟨[], "big", ".mp4", 100⟩ : SrcFile) ∉
      find_needs_compression [⟨[], "big", ".mp4", 100⟩] (fun _ => 0) := by
  constructor
  · exact (C9_mp4_bitrate_selection [⟨[], "big", ".mp4", 100⟩]
      (fun _ => 10000000) ⟨[], "big", ".mp4", 100⟩).1.mpr
      ⟨by decide, by decide, by decide, by decide⟩
  · exact (C9_mp4_bitrate_selection [⟨[], "big", ".mp4", 100⟩]
      (fun _ => 0) ⟨[], "big", ".mp4", 100⟩).2.1 rfl

/-! ## ContainerConvert and SubtitleExtract classifiers
(`AutoConverter._find_unconverted` stream_server.py:184-198,
`AutoConverter._find_needs_subtitle_extract` stream_server.py:350-406,
`AutoConverter._get_subtitle_streams` stream_server.py:408-434, and the
`embedded_multi` branch of `AutoConverter._extract_subtitles`
stream_server.py:476-526)

The ffprobe subtitle probe is an oracle `SrcFile → List SubStream`
returning the raw stream entries; `_get_subtitle_streams` keeps the
text-based codecs. The probe is assumed available (`ffprobe_path` set);
the watched root's own absolute path is assumed not to contain `.bak`, so
the code's `".bak" in str(file_path)` test is modeled on the path relative
to the root. -/

/-- Split a character list on a separator character (Python `str.split`). -/
def splitCh (sep : Char) : List Char → List (List Char)
  | [] => [[]]
  | c :: rest =>
    match splitCh sep rest with
    | [] => [[c]]
    | h :: t => if c = sep then [] :: h :: t else (c :: h) :: t

/-- `Path.suffixes` (CPython): empty for a name ending in a dot; else strip
leading dots and return each later dot-component prefixed with a dot. -/
def pySuffixes (name : List Char) : List (List Char) :=
  if name.getLast? = some '.' then []
  else
    match splitCh '.' (name.dropWhile (fun c => c = '.')) with
    | [] => []
    | _ :: rest => rest.map (fun s => '.' :: s)

/-- `AutoConverter.CONVERTIBLE`. -/
def CONVERTIBLE : List String := [".mkv", ".avi", ".mov"]

/-- `file_path.with_suffix(".mp4").exists()` against the tree. -/
def hasMp4Sibling (tree : List SrcFile) (f : SrcFile) : Bool :=
  tree.any fun g => g.parent = f.parent ∧ g.stem = f.stem ∧ g.ext = ".mp4"

/-- `AutoConverter._find_unconverted`: convertible-container files with no
`.bak` suffix component and no `.mp4` sibling. -/
def find_unconverted (tree : List SrcFile) : List SrcFile :=
  tree.filter fun f =>
    lowerStr f.ext ∈ CONVERTIBLE
    ∧ ¬ ((".bak").data ∈ pySuffixes f.name.data)
    ∧ ¬ hasMp4Sibling tree f

/-- One subtitle stream as reported by the ffprobe oracle. -/
structure SubStream where
  index : Nat
  codec : String
  lang : String
  title : String
deriving DecidableEq, Repr

/-- The text-based subtitle codecs of `_get_subtitle_streams`. -/
def TEXT_CODECS : List String :=
  ["srt", "subrip", "ass", "ssa", "mov_text", "webvtt"]

/-- `AutoConverter._get_subtitle_streams`: keep the text-codec streams. -/
def get_subtitle_streams (probe : SrcFile → List SubStream) (f : SrcFile) :
    List SubStream :=
  (probe f).filter fun s => s.codec ∈ TEXT_CODECS

/-- `endswith` on character lists. -/
def isSuffixL {α : Type} [DecidableEq α] (a b : List α) : Bool :=
  isPrefixL a.reverse b.reverse

/-- Does `name` match the glob `<stem>.*.vtt`
(i.e. `name = stem ++ "." ++ X ++ ".vtt"` for some `X`)? -/
def isGlobStemVtt (stem name : List Char) : Bool :=
  isPrefixL (stem ++ ['.']) name
  ∧ isSuffixL ((".vtt").data) (name.drop (stem.length + 1))

/-- `s.rsplit(".", 1)`: split at the last dot, if any. -/
def rsplitDot1 (cs : List Char) : List (List Char) :=
  if cs.any (fun c => c = '.') then
    [cs.take (cs.length - (cs.reverse.takeWhile (fun c => ¬ (c = '.'))).length - 1),
     (cs.reverse.takeWhile (fun c => ¬ (c = '.'))).reverse]
  else [cs]

/-- The `_existing_langs` helper of `_find_needs_subtitle_extract`: the
language tags already materialized as `<stem>.<tag>.vtt` sidecars, plus a
`"_old"` marker when a legacy `<stem>.vtt` exists. -/
def existing_langs (tree : List SrcFile) (base : SrcFile) : List String :=
  ((tree.filter fun g => g.parent = base.parent
      ∧ isGlobStemVtt base.stem.data g.name.data).filterMap fun g =>
    match rsplitDot1 g.stem.data with
    | [_, lang] => some (String.mk lang)
    | _ => none)
  ++ (if tree.any (fun g => g.parent = base.parent ∧ g.stem = base.stem
        ∧ g.ext = ".vtt") then [("_old")] else [])

/-- Find the sibling of `f` with the given suffix in the tree. -/
def findSibling (tree : List SrcFile) (f : SrcFile) (ext : String) :
    Option SrcFile :=
  tree.find? fun g => g.parent = f.parent ∧ g.stem = f.stem ∧ g.ext = ext

/-- A produced SubtitleExtract work item: either an external `.srt` to
convert, or a set of embedded streams to extract (with the `.bak`-recovery
output base path in the 4-tuple case). -/
inductive SubTask where
  | srtTask (video srt : SrcFile)
  | embeddedMulti (video : SrcFile) (missing : List SubStream)
      (basePath : Option SrcFile)
deriving DecidableEq, Repr

/-- The per-file body of `_find_needs_subtitle_extract`'s main loop. -/
def subScanOne (tree : List SrcFile) (probe : SrcFile → List SubStream)
    (f : SrcFile) : List SubTask :=
  match findSibling tree f (".srt"), findSibling tree f (".vtt") with
  | some srt, none => [SubTask.srtTask f srt]
  | _, _ =>
    let embedded := get_subtitle_streams probe f
    if embedded.isEmpty then []
    else
      let missing := embedded.filter fun s => ¬ (s.lang ∈ existing_langs tree f)
      if missing.isEmpty then [] else [SubTask.embeddedMulti f missing none]

/-- Substring test (Python `in` on strings). -/
def containsSub (pat : List Char) : List Char → Bool
  | [] => isPrefixL pat []
  | c :: rest => if isPrefixL pat (c :: rest) then true else containsSub pat rest

/-- The path of `f` relative to the watched root, as one character list. -/
def relPathChars (f : SrcFile) : List Char :=
  pathStr ((f.parent.map String.data) ++ [f.name.data])

/-- The per-pattern candidate filter of `_find_needs_subtitle_extract`:
suffix match, no `.bak` anywhere in the path, no `_` temp prefix. -/
def subVisible (tree : List SrcFile) (pat : String) : List SrcFile :=
  tree.filter fun f =>
    f.ext = pat ∧ ¬ containsSub ((".bak").data) (relPathChars f)
    ∧ ¬ f.underscored

/-- The `*.mkv.bak` recovery pass of `_find_needs_subtitle_extract`. -/
def bakRecoveryTasks (tree : List SrcFile) (probe : SrcFile → List SubStream) :
    List SubTask :=
  (tree.filter fun g => g.ext = ".bak"
      ∧ isSuffixL ((".mkv").data) g.stem.data).flatMap fun bak =>
    match tree.find? (fun g => g.parent = bak.parent
        ∧ g.stem = String.mk (bak.stem.data.take (bak.stem.data.length - 4))
        ∧ g.ext = ".mp4") with
    | some mp4 =>
      let embedded := get_subtitle_streams probe bak
      if embedded.isEmpty then []
      else
        let missing := embedded.filter fun s =>
          ¬ (s.lang ∈ existing_langs tree mp4)
        if missing.isEmpty then []
        else [SubTask.embeddedMulti bak missing (some mp4)]
    | none => []

/-- `AutoConverter._find_needs_subtitle_extract`. -/
def find_needs_subtitle_extract (tree : List SrcFile)
    (probe : SrcFile → List SubStream) : List SubTask :=
  ((subVisible tree (".mp4") ++ subVisible tree (".mkv")
      ++ subVisible tree (".avi")).flatMap (subScanOne tree probe))
  ++ bakRecoveryTasks tree probe

/-- `re.sub(r"[^\w]", "", title)[:10]` (ASCII word characters). -/
def safeTitle (title : String) : String :=
  String.mk ((title.data.filter fun c => c.isAlphanum ∨ c = '_').take 10)

/-- The sidecar name tag chosen by `_extract_subtitles` for one stream:
the language code, disambiguated with the sanitized title when another
stream of the batch shares the language. -/
def streamSuffix (streams : List SubStream) (s : SubStream) : String :=
  if ¬ (s.title = "") ∧ streams.any (fun t => ¬ (t = s) ∧ t.lang = s.lang) then
    (if ¬ (safeTitle s.title = "") then
      s.lang ++ ("_") ++ safeTitle s.title
    else s.lang)
  else s.lang

/-- `base_path.with_suffix("." + suffix + ".vtt")` as a tree record. The
byte size of a freshly written sidecar is irrelevant to classification and
set to 0. -/
def vttSibling (base : SrcFile) (tag : String) : SrcFile :=
  ⟨base.parent, base.stem ++ (".") ++ tag, ".vtt", 0⟩

/-- The filesystem effect of a fully successful `embedded_multi`
`_extract_subtitles` run: for each stream, skip if its sidecar exists,
else (ffmpeg exiting 0) the sidecar is created. -/
def extract_embedded_success (tree : List SrcFile) (base : SrcFile)
    (streams : List SubStream) : List SrcFile :=
  streams.foldl (fun acc s =>
    let v := vttSibling base (streamSuffix streams s)
    if acc.any (fun g => g.parent = v.parent ∧ g.stem = v.stem
        ∧ g.ext = ".vtt") then acc
    else acc ++ [v]) tree

/-- C7 (counterexample): the classifier is a pure function of the file
tree, so with `movie.mkv` present and no intervening filesystem change,
the second of two consecutive classifier runs returns the same singleton
ContainerConvert list as the first — not the empty list the claim
requires. -/
theorem C7_second_run_not_empty :
    find_unconverted [⟨[], "movie", ".mkv", 50⟩]
      = [⟨[], "movie", ".mkv", 50⟩]
    ∧ find_unconverted [⟨[], "movie", ".mkv", 50⟩] ≠ [] := by
  decide

/-- The fixed probe of the duplicate-language scenario: `show.mp4` carries
two embedded `mov_text` streams, both tagged `eng`, titled `SDH` and
`Forced`. -/
def dupProbe : SrcFile → List SubStream := fun f =>
  if f.stem = "show" ∧ f.ext = ".mp4" then
    [⟨2, "mov_text", "eng", "SDH"⟩, ⟨3, "mov_text", "eng", "Forced"⟩]
  else []

/-- C7 (amended): a second classifier run on an unchanged tree returns the
same list (see the counterexample); after a successful container
conversion — the `.mp4` sibling now existing — the ContainerConvert task
is not reproduced; but idempotence fails for embedded-subtitle tasks whose
duplicate-language streams carry titles: the fix writes
`show.eng_SDH.vtt` / `show.eng_Forced.vtt` while the classifier looks for
the bare tag `eng`, so the very same task is still produced after the fix
(its re-execution is a no-op). -/
theorem C7_idempotence_scope (tree : List SrcFile) (f g : SrcFile)
    (hg : g ∈ tree) (hgp : g.parent = f.parent) (hgs : g.stem = f.stem)
    (hgx : g.ext = ".mp4") :
    f ∉ find_unconverted tree
    ∧ find_needs_subtitle_extract [⟨[], "show", ".mp4", 10⟩] dupProbe
      = [SubTask.embeddedMulti ⟨[], "show", ".mp4", 10⟩
          [⟨2, "mov_text", "eng", "SDH"⟩, ⟨3, "mov_text", "eng", "Forced"⟩] none]
    ∧ find_needs_subtitle_extract
        (extract_embedded_success [⟨[], "show", ".mp4", 10⟩]
          ⟨[], "show", ".mp4", 10⟩
          [⟨2, "mov_text", "eng", "SDH"⟩, ⟨3, "mov_text", "eng", "Forced"⟩])
        dupProbe
      = [SubTask.embeddedMulti ⟨[], "show", ".mp4", 10⟩
          [⟨2, "mov_text", "eng", "SDH"⟩, ⟨3, "mov_text", "eng", "Forced"⟩] none] := by
  refine ⟨?_, by decide, by decide⟩
  intro hf
  have hmem := (List.mem_filter.mp hf).2
  simp only [decide_eq_true_eq] at hmem
  have hsib : hasMp4Sibling tree f = true :=
    List.any_eq_true.mpr ⟨g, hg, by simp [hgp, hgs, hgx]⟩
  exact hmem.2.2 hsib

/-- Witness for C7: with `movie.mkv` and its converted `movie.mp4` both
present, the `.mkv` is no longer a ContainerConvert candidate. -/
theorem C7_idempotence_scope_witness :
    (⟨[], "movie", ".mkv", 50⟩ : SrcFile) ∉
      find_unconverted [⟨[], "movie", ".mkv", 50⟩, ⟨[], "movie", ".mp4", 40⟩] := by
  exact (C7_idempotence_scope
    [⟨[], "movie", ".mkv", 50⟩, ⟨[], "movie", ".mp4", 40⟩]
    ⟨[], "movie", ".mkv", 50⟩ ⟨[], "movie", ".mp4", 40⟩
    (by decide) (by decide) (by decide) (by decide)).1

/-! ## SRT → WebVTT conversion
(`AutoConverter._srt_to_vtt`, stream_server.py:528-537)

The input is the decoded text of the `.srt` file (read with `utf-8-sig`,
i.e. after BOM stripping); the output is the text written to the `.vtt`
file. -/

/-- `content.replace(",", ".")`: every comma becomes a period. -/
def replaceCommas : List Char → List Char
  | [] => []
  | c :: rest => (if c = ',' then '.' else c) :: replaceCommas rest

/-- `AutoConverter._srt_to_vtt`: write `"WEBVTT\n\n"`, then the content
with commas replaced. -/
def srt_to_vtt (content : List Char) : List Char :=
  ("WEBVTT\n\n").data ++ replaceCommas content

theorem replaceCommas_eq_map (l : List Char) :
    replaceCommas l = l.map fun c => if c = ',' then '.' else c := by
  induction l with
  | nil => rfl
  | cons c rest ih => simp [replaceCommas, ih]

/-- C10: the converter's output is exactly `"WEBVTT"` + two newlines +
the input with **every** comma replaced by a period (dialogue commas
included, not only timestamp commas): character `8 + i` of the output is
the replaced character `i` of the input, no comma survives anywhere, and
the length is the input's plus 8. -/
theorem C10_srt_to_vtt_shape (content : List Char) :
    srt_to_vtt content
      = ("WEBVTT\n\n").data ++ content.map (fun c => if c = ',' then '.' else c)
    ∧ ',' ∉ srt_to_vtt content
    ∧ (srt_to_vtt content).length = 8 + content.length := by
  refine ⟨?_, ?_, ?_⟩
  · rw [srt_to_vtt, replaceCommas_eq_map]
  · rw [srt_to_vtt, replaceCommas_eq_map]
    intro hmem
    rcases List.mem_append.mp hmem with h | h
    · revert h; decide
    · obtain ⟨c, _, hc⟩ := List.mem_map.mp h
      by_cases hcc : c = ',' <;> simp [hcc] at hc
  · rw [srt_to_vtt, replaceCommas_eq_map]
    simp
    omega

/-- Witness for C10 on a concrete cue with a timestamp comma and a
dialogue comma. -/
theorem C10_srt_to_vtt_shape_witness :
    srt_to_vtt (("00:01,500\nYes, sir").data)
      = ("WEBVTT\n\n00:01.500\nYes. sir").data := by
  have h := (C10_srt_to_vtt_shape (("00:01,500\nYes, sir").data)).1
  rw [h]
  decide

end LowKey
